import Mathlib

/-!
Shallow embedding of the layered character-grid compositor in
src/xmas_tool.py, together with theorems settling the frozen claims
about it.

Modelling conventions:
- Python ints are Lean `Int`; canvas dimensions are `Nat` (the grid is
  built with `range(nrows)`, and the spec fixes `rows, cols > 0`).
- Python floor division and modulo appear in the source only with the
  positive divisors 2, 3 and 4; for a positive divisor Python floor
  division and Euclidean division coincide, so they are embedded as
  Lean Int `/` and `%` (Euclidean).
- The Python dict `Canvas.elements` is an association list kept in
  insertion order (Python dicts iterate in insertion order; assignment
  to an existing key keeps its position, which `upsertAssoc` mirrors).
- `uuid.uuid4()` freshness is externalized: constructors that generate
  an id in Python take the fresh id as an explicit argument here.
- `random.randint` draws are externalized as an explicit list of
  natural numbers consumed by the ornament pass.
-/

/-- A grid cell, from the dataclass Cell: row `x`, column `y`, display
character `c`. -/
structure Cell where
  x : Int
  y : Int
  c : Char
  deriving DecidableEq, Repr

/-- Embedding of Cell.in_bounds: true iff the cell lies inside an
`nrows` by `ncols` grid. -/
def Cell.in_bounds (cell : Cell) (nrows ncols : Nat) : Bool :=
  decide (0 ≤ cell.x ∧ cell.x < (nrows : Int) ∧ 0 ≤ cell.y ∧ cell.y < (ncols : Int))

/-- Embedding of class CanvasElement: an id, a z-order key and a cell
list. In Python the id is a fresh uuid4 string; here it is a field
supplied by whoever constructs the element. -/
structure CanvasElement where
  id : String
  z : Int
  cell_list : List Cell
  deriving DecidableEq, Repr

/-- Embedding of CanvasElement.merge: a new element whose z is the z of
the first argument and whose cells are the cells of the first argument
followed by the cells of the second. The fresh uuid4 id generated by
the Python constructor is taken as the explicit argument `fresh_id`. -/
def CanvasElement.merge (fresh_id : String) (element1 element2 : CanvasElement) :
    CanvasElement :=
  { id := fresh_id, z := element1.z, cell_list := element1.cell_list ++ element2.cell_list }

/-- Embedding of class Canvas: fixed dimensions plus the element
mapping, kept as an association list in Python-dict insertion order. -/
structure Canvas where
  nrows : Nat
  ncols : Nat
  elements : List (String × CanvasElement)
  deriving DecidableEq, Repr

/-- Assignment `d[k] = v` on a Python dict represented as an
insertion-ordered association list: replace in place if the key is
present, otherwise append at the end. -/
def upsertAssoc : List (String × CanvasElement) → String → CanvasElement →
    List (String × CanvasElement)
  | [], k, v => [(k, v)]
  | (k', v') :: rest, k, v =>
      if k' = k then (k, v) :: rest else (k', v') :: upsertAssoc rest k v

/-- Embedding of Canvas.upsert: store the element under its id. -/
def Canvas.upsert (cv : Canvas) (canvas_element : CanvasElement) : Canvas :=
  { cv with elements := upsertAssoc cv.elements canvas_element.id canvas_element }

/-- Python runtime errors raised by the embedded code. -/
inductive PyError where
  | nameError (missing : String)
  deriving DecidableEq, Repr

/-- Embedding of Canvas.remove. The Python body is

      if element.name in self.elements: ...

but the identifier `element` is unbound there: the parameter is named
`canvas_element`, and no global named `element` exists in the module.
Evaluating the condition therefore raises NameError before any lookup
or mutation can happen, on every call, whatever the arguments. -/
def Canvas.remove (cv : Canvas) (canvas_element : CanvasElement) :
    Except PyError Canvas :=
  Except.error (PyError.nameError "element")

/-- Embedding of Canvas.get_element: dict .get with default None. -/
def lookupAssoc : List (String × CanvasElement) → String → Option CanvasElement
  | [], _ => none
  | (k', v') :: rest, k => if k' = k then some v' else lookupAssoc rest k

/-- Embedding of Canvas.get_element. -/
def Canvas.get_element (cv : Canvas) (name : String) : Option CanvasElement :=
  lookupAssoc cv.elements name

/-- The blank grid allocated at the start of Canvas.render. -/
def blankGrid (nrows ncols : Nat) : List (List Char) :=
  List.replicate nrows (List.replicate ncols ' ')

/-- One iteration of the inner loop of Canvas.render: skip the cell if
it is out of bounds, otherwise overwrite the grid position with the
character of the cell. -/
def paintCell (nrows ncols : Nat) (g : List (List Char)) (cell : Cell) :
    List (List Char) :=
  if Cell.in_bounds cell nrows ncols then
    g.set cell.x.toNat ((g.getD cell.x.toNat []).set cell.y.toNat cell.c)
  else g

/-- Painting every cell of one element, in list order. -/
def paintElement (nrows ncols : Nat) (g : List (List Char)) (element : CanvasElement) :
    List (List Char) :=
  element.cell_list.foldl (paintCell nrows ncols) g

/-- Stable insertion into a list sorted by ascending z: the inserted
element goes before the first element of z not smaller than its own, so
among equal z the already-present elements keep priority. -/
def insertZ (e : CanvasElement) : List CanvasElement → List CanvasElement
  | [] => [e]
  | y :: ys => if e.z ≤ y.z then e :: y :: ys else y :: insertZ e ys

/-- Stable ascending sort by z, the embedding of
sorted(elements, key=lambda elem: elem.z); Python sorted is stable, and
this insertion sort is stable with the same ascending order. -/
def sortByZ : List CanvasElement → List CanvasElement
  | [] => []
  | x :: xs => insertZ x (sortByZ xs)

/-- Embedding of Canvas.render: allocate a blank grid, sort the current
elements by ascending z (stably, in dict insertion order), then paint
every in-bounds cell of every element in that order. -/
def Canvas.render (cv : Canvas) : List (List Char) :=
  (sortByZ (cv.elements.map Prod.snd)).foldl
    (paintElement cv.nrows cv.ncols) (blankGrid cv.nrows cv.ncols)

/-- State-passing embedding of the call `self.render()`: the pair of
the post-state of the receiver and the returned grid. The body of
Canvas.render assigns no attribute of self (it only reads nrows, ncols
and elements, and builds its grid in a fresh local), so the post-state
is the pre-state unchanged. -/
def Canvas.renderM (cv : Canvas) : Canvas × List (List Char) :=
  (cv, cv.render)

/-- Reading one position of a rendered grid. -/
def gridGet (g : List (List Char)) (r c : Nat) : Char :=
  (g.getD r []).getD c ' '

/-- Embedding of Python range(lo, hi) over ints: lo, lo+1, ..., hi-1,
empty when hi is at most lo. -/
def intRange (lo hi : Int) : List Int :=
  (List.range (hi - lo).toNat).map (fun (k : Nat) => lo + (k : Int))

/-- Embedding of Box._build (the underscore of the Python name is
dropped). Order of appends follows the source: interior fill first when
filled, then top-left and top-right corners and the top horizontal
edge, then bottom-left and bottom-right corners and the bottom
horizontal edge, then the vertical edges row by row. -/
def Box.build (start_row end_row start_col end_col : Int) (filled : Bool) :
    List Cell :=
  (if filled then
      (intRange (start_row + 1) end_row).flatMap (fun i =>
        (intRange (start_col + 1) end_col).map (fun j => Cell.mk i j ' '))
    else [])
  ++ ([Cell.mk start_row start_col '╭', Cell.mk start_row end_col '╮']
      ++ (intRange (start_col + 1) end_col).map (fun i =>
            Cell.mk start_row i '─'))
  ++ ([Cell.mk end_row start_col '╰', Cell.mk end_row end_col '╯']
      ++ (intRange (start_col + 1) end_col).map (fun i =>
            Cell.mk end_row i '─'))
  ++ (intRange (start_row + 1) end_row).flatMap (fun i =>
        [Cell.mk i start_col '│', Cell.mk i end_col '│'])

/-- Embedding of XmasTree._build (before decoration): the star cell at
the apex, then the leaf rows, then the trunk block, appended in source
order. Python floor division by the positive constants 2, 3, 4 is Int
Euclidean division here. -/
def XmasTree.build (start_row start_col height : Int) : List Cell :=
  let width := 2 * height - 1
  [Cell.mk start_row (start_col + width / 2) '✪']
  ++ (intRange 1 height).flatMap (fun i =>
        (intRange (width / 2 - i) (width / 2 + i + 1)).map (fun j =>
          Cell.mk (start_row + i) (start_col + j) '*'))
  ++ (let trunk_width0 := height / 3
      let trunk_width := if trunk_width0 % 2 = 1 then trunk_width0 else trunk_width0 + 1
      let trunk_height := height / 4
      let trunk_start := width / 2 - trunk_width / 2
      (intRange height (height + trunk_height)).flatMap (fun i =>
        (intRange trunk_start (trunk_start + trunk_width)).map (fun j =>
          Cell.mk (start_row + i) (start_col + j) '*')))

/-- Default used when indexing a cell list out of range; its character
is a blank, which is never the leaf glyph. -/
def defaultCell : Cell := ⟨0, 0, ' '⟩

/-- The inner `while True` of XmasTree._add_ornaments, with the random
draws externalized: consume draws until one hits a cell whose character
is the leaf glyph, returning that index and the remaining draws, or
none when the supplied draws run out with the loop still spinning. -/
def drawLoop (cells : List Cell) : List Nat → Option (Nat × List Nat)
  | [] => none
  | d :: rest =>
      if (cells.getD d defaultCell).c = '*' then some (d, rest)
      else drawLoop cells rest

/-- The in-place update self.cell_list[i].c = 'O'. -/
def setOrnament (cells : List Cell) (i : Nat) : List Cell :=
  match cells[i]? with
  | some cl => cells.set i (Cell.mk cl.x cl.y 'O')
  | none => cells

/-- Embedding of XmasTree._add_ornaments: place n ornaments, each by
running the retry loop on the supplied random draws; none means the
draws were exhausted while the code was still inside its unbounded
retry loop (the Python has no other way out). -/
def addOrnaments : List Cell → Nat → List Nat → Option (List Cell)
  | cells, 0, _ => some cells
  | cells, n + 1, draws =>
      match drawLoop cells draws with
      | none => none
      | some (i, rest) => addOrnaments (setOrnament cells i) n rest

/-- The cells of an element located at a given position, in list
order. -/
def cellsAt (cells : List Cell) (r c : Int) : List Cell :=
  cells.filter (fun cl => cl.x == r && cl.y == c)

/-- The character an element by itself paints at a position: the
character of the last of its cells at that position, if any (cells are
painted in list order, so the last one wins within the element). -/
def lastCharAt (element : CanvasElement) (r c : Int) : Option Char :=
  ((cellsAt element.cell_list r c).getLast?).map Cell.c

/-- An element with its out-of-bounds cells removed. -/
def clipElement (nrows ncols : Nat) (element : CanvasElement) : CanvasElement :=
  { element with
      cell_list := element.cell_list.filter (fun cl => Cell.in_bounds cl nrows ncols) }

/-- A canvas with every registered element clipped to the canvas
bounds. -/
def Canvas.clip (cv : Canvas) : Canvas :=
  { cv with
      elements := cv.elements.map (fun kv => (kv.fst, clipElement cv.nrows cv.ncols kv.snd)) }

/-! ## Claim C1 and C2: Canvas.remove -/

/-- Claim C1 (code bug evaluation): removing a never-inserted id from a
concrete canvas does not return a not-found indication; the call raises
NameError because the body of Canvas.remove reads the undefined name
`element` instead of its parameter `canvas_element`. -/
theorem remove_unknown_id_raises :
    Canvas.remove (Canvas.mk 3 3 []) (CanvasElement.mk "ghost" 0 [])
      = Except.error (PyError.nameError "element") := rfl

/-- Claim C2: for every canvas and every argument, Canvas.remove raises
NameError (the body reads the undefined name `element`), so no call to
remove ever deletes an entry or returns normally. -/
theorem remove_always_raises (cv : Canvas) (canvas_element : CanvasElement) :
    Canvas.remove cv canvas_element = Except.error (PyError.nameError "element")
    ∧ ∀ cv' : Canvas, Canvas.remove cv canvas_element ≠ Except.ok cv' :=
  ⟨rfl, fun _ h => by simp [Canvas.remove] at h⟩

/-! ## Claim C5: Box cell counts -/

/-- Claim C5 (counterexample): Box(0,4,0,4,filled=false) produces 16
cells, not the 12 the claim states: each edge strictly between the
corners of a span from 0 to 4 holds the three columns or rows 1, 2, 3,
not two. -/
theorem box_outline_count_ne_12 :
    (Box.build 0 4 0 4 false).length = 16
    ∧ (Box.build 0 4 0 4 false).length ≠ 12 := by decide

/-- Claim C5 (amended): Box(0,4,0,4,filled=false) produces exactly the
4 corner cells, 3 plus 3 horizontal-edge cells on the top and bottom
rows strictly between the corners, and 3 plus 3 vertical-edge cells on
the left and right columns strictly between the corners — 16 cells, no
interior cells; with filled=true it additionally produces exactly the
3 * 3 = 9 interior blank-character cells (prepended by the source
before the outline). -/
theorem box_build_amended :
    Box.build 0 4 0 4 false =
      [Cell.mk 0 0 '╭', Cell.mk 0 4 '╮',
       Cell.mk 0 1 '─', Cell.mk 0 2 '─', Cell.mk 0 3 '─',
       Cell.mk 4 0 '╰', Cell.mk 4 4 '╯',
       Cell.mk 4 1 '─', Cell.mk 4 2 '─', Cell.mk 4 3 '─',
       Cell.mk 1 0 '│', Cell.mk 1 4 '│',
       Cell.mk 2 0 '│', Cell.mk 2 4 '│',
       Cell.mk 3 0 '│', Cell.mk 3 4 '│']
    ∧ Box.build 0 4 0 4 true =
      [Cell.mk 1 1 ' ', Cell.mk 1 2 ' ', Cell.mk 1 3 ' ',
       Cell.mk 2 1 ' ', Cell.mk 2 2 ' ', Cell.mk 2 3 ' ',
       Cell.mk 3 1 ' ', Cell.mk 3 2 ' ', Cell.mk 3 3 ' ']
      ++ Box.build 0 4 0 4 false := by decide

/-! ## Claim C7: merge -/

/-- Claim C7: merge returns a new element whose z is the z of the first
argument (the z of the second is discarded) and whose cell sequence is
the cells of the first argument followed by the cells of the second, of
length the sum of the two lengths; as a pure constructor of the
embedding it mutates neither input. -/
theorem merge_spec (fresh_id : String) (A B : CanvasElement) :
    (CanvasElement.merge fresh_id A B).z = A.z
    ∧ (CanvasElement.merge fresh_id A B).cell_list = A.cell_list ++ B.cell_list
    ∧ (CanvasElement.merge fresh_id A B).cell_list.length
        = A.cell_list.length + B.cell_list.length := by
  refine ⟨rfl, rfl, ?_⟩
  simp [CanvasElement.merge]

/-! ## Claim C10: render leaves the canvas unchanged -/

/-- Claim C10: in the state-passing embedding of a render call, the
post-state canvas keeps its rows, columns and element mapping (hence
every registered element, its z and its cell list) exactly as before
the call, and the returned grid is the one render builds from a fresh
blank grid. -/
theorem render_no_canvas_mutation (cv : Canvas) :
    (Canvas.renderM cv).fst.nrows = cv.nrows
    ∧ (Canvas.renderM cv).fst.ncols = cv.ncols
    ∧ (Canvas.renderM cv).fst.elements = cv.elements
    ∧ (Canvas.renderM cv).snd
        = (sortByZ (cv.elements.map Prod.snd)).foldl
            (paintElement cv.nrows cv.ncols) (blankGrid cv.nrows cv.ncols) :=
  ⟨rfl, rfl, rfl, rfl⟩

/-! ## Grid helper lemmas for Canvas.render -/

/-- Shape of a grid: the row count and the length of every row read by
index. -/
def gridShape (g : List (List Char)) (nrows ncols : Nat) : Prop :=
  g.length = nrows ∧ ∀ i : Nat, i < nrows → (g.getD i []).length = ncols

theorem getD_set_self {α : Type} (l : List α) (i : Nat) (a d : α) (h : i < l.length) :
    (l.set i a).getD i d = a := by
  induction l generalizing i with
  | nil => simp at h
  | cons x xs ih =>
    cases i with
    | zero => rfl
    | succ n => simpa using ih n (by simpa using h)

theorem getD_set_ne {α : Type} (l : List α) (i j : Nat) (a d : α) (h : i ≠ j) :
    (l.set i a).getD j d = l.getD j d := by
  induction l generalizing i j with
  | nil => rfl
  | cons x xs ih =>
    cases i with
    | zero =>
      cases j with
      | zero => exact absurd rfl h
      | succ m => rfl
    | succ n =>
      cases j with
      | zero => rfl
      | succ m => simpa using ih n m (by omega)

theorem getD_replicate {α : Type} (n i : Nat) (a d : α) (h : i < n) :
    (List.replicate n a).getD i d = a := by
  induction n generalizing i with
  | zero => omega
  | succ m ih =>
    rw [List.replicate_succ]
    cases i with
    | zero => rfl
    | succ k =>
      rw [List.getD_cons_succ]
      exact ih k (by omega)

theorem getD_of_length_le {α : Type} (l : List α) (i : Nat) (d : α) (h : l.length ≤ i) :
    l.getD i d = d := by
  induction l generalizing i with
  | nil => rfl
  | cons x xs ih =>
    cases i with
    | zero => simp at h
    | succ k =>
      rw [List.getD_cons_succ]
      exact ih k (by simpa using h)

theorem getD_of_mem {α : Type} (g : List α) (row : α) (d : α) (h : row ∈ g) :
    ∃ i : Nat, i < g.length ∧ g.getD i d = row := by
  induction g with
  | nil => simp at h
  | cons x xs ih =>
    rcases List.mem_cons.mp h with h1 | h2
    · exact ⟨0, by simp, h1.symm⟩
    · obtain ⟨i, hi, hg⟩ := ih h2
      exact ⟨i + 1, by simpa using hi, hg⟩

theorem blankGrid_shape (nrows ncols : Nat) : gridShape (blankGrid nrows ncols) nrows ncols := by
  refine ⟨by simp [blankGrid], fun i hi => ?_⟩
  rw [blankGrid, getD_replicate nrows i _ _ hi]
  simp

/-- Unfolding of the in-bounds test into its arithmetic content. -/
theorem in_bounds_iff (cell : Cell) (nrows ncols : Nat) :
    Cell.in_bounds cell nrows ncols = true ↔
      0 ≤ cell.x ∧ cell.x < (nrows : Int) ∧ 0 ≤ cell.y ∧ cell.y < (ncols : Int) := by
  simp [Cell.in_bounds]

theorem paintCell_shape (nrows ncols : Nat) (g : List (List Char)) (cell : Cell)
    (hg : gridShape g nrows ncols) : gridShape (paintCell nrows ncols g cell) nrows ncols := by
  unfold paintCell
  by_cases hb : Cell.in_bounds cell nrows ncols
  · rw [if_pos hb]
    obtain ⟨hlen, hrow⟩ := hg
    refine ⟨by simpa using hlen, fun i hi => ?_⟩
    by_cases hx : cell.x.toNat = i
    · subst hx
      rw [getD_set_self _ _ _ _ (by omega)]
      simpa using hrow _ hi
    · rw [getD_set_ne _ _ _ _ _ hx]
      exact hrow i hi
  · rwa [if_neg hb]

theorem paintCells_shape (nrows ncols : Nat) (cells : List Cell) (g : List (List Char))
    (hg : gridShape g nrows ncols) :
    gridShape (cells.foldl (paintCell nrows ncols) g) nrows ncols := by
  induction cells generalizing g with
  | nil => exact hg
  | cons cl cls ih => exact ih _ (paintCell_shape nrows ncols g cl hg)

theorem paintElements_shape (nrows ncols : Nat) (es : List CanvasElement)
    (g : List (List Char)) (hg : gridShape g nrows ncols) :
    gridShape (es.foldl (paintElement nrows ncols) g) nrows ncols := by
  induction es generalizing g with
  | nil => exact hg
  | cons e es ih => exact ih _ (paintCells_shape nrows ncols e.cell_list g hg)

/-- Painting one in-bounds cell writes its character at its own
position. -/
theorem gridGet_paintCell_self (nrows ncols : Nat) (g : List (List Char)) (cell : Cell)
    (hg : gridShape g nrows ncols) (hb : Cell.in_bounds cell nrows ncols = true) :
    gridGet (paintCell nrows ncols g cell) cell.x.toNat cell.y.toNat = cell.c := by
  obtain ⟨hx0, hxn, hy0, hym⟩ := (in_bounds_iff cell nrows ncols).mp hb
  obtain ⟨hlen, hrow⟩ := hg
  unfold paintCell gridGet
  rw [if_pos hb]
  rw [getD_set_self _ _ _ _ (by omega)]
  rw [getD_set_self _ _ _ _ (by rw [hrow cell.x.toNat (by omega)]; omega)]

/-- Painting one cell leaves every other in-bounds position of the grid
unchanged. -/
theorem gridGet_paintCell_other (nrows ncols : Nat) (g : List (List Char)) (cell : Cell)
    (r c : Int) (hr0 : 0 ≤ r) (hc0 : 0 ≤ c)
    (hne : ¬(cell.x = r ∧ cell.y = c)) :
    gridGet (paintCell nrows ncols g cell) r.toNat c.toNat = gridGet g r.toNat c.toNat := by
  unfold paintCell
  by_cases hb : Cell.in_bounds cell nrows ncols
  · obtain ⟨hx0, hxn, hy0, hym⟩ := (in_bounds_iff cell nrows ncols).mp hb
    rw [if_pos hb]
    unfold gridGet
    by_cases hx : cell.x = r
    · have hy : cell.y ≠ c := fun hc => hne ⟨hx, hc⟩
      have hyt : cell.y.toNat ≠ c.toNat := by omega
      have hxt : cell.x.toNat = r.toNat := by omega
      rw [hxt]
      by_cases hlen : r.toNat < g.length
      · rw [getD_set_self _ _ _ _ hlen, ← hxt, getD_set_ne _ _ _ _ _ hyt]
      · have h1 : (g.set r.toNat ((g.getD r.toNat []).set cell.y.toNat cell.c)).getD
              r.toNat [] = [] :=
          getD_of_length_le _ _ _ (by rw [List.length_set]; omega)
        have h2 : g.getD r.toNat [] = ([] : List Char) :=
          getD_of_length_le _ _ _ (by omega)
        rw [h1, h2]
    · have hxt : cell.x.toNat ≠ r.toNat := by omega
      rw [getD_set_ne _ _ _ _ _ hxt]
  · rw [if_neg hb]

/-- Reading an in-bounds position after painting a cell list: the
character of the last cell of the list at that position wins; if no
cell of the list sits there, the grid is unchanged there. -/
theorem gridGet_paintCells (nrows ncols : Nat) (cells : List Cell)
    (g : List (List Char)) (hg : gridShape g nrows ncols) (r c : Int)
    (hr0 : 0 ≤ r) (hrn : r < (nrows : Int)) (hc0 : 0 ≤ c) (hcm : c < (ncols : Int)) :
    gridGet (cells.foldl (paintCell nrows ncols) g) r.toNat c.toNat =
      (((cellsAt cells r c).getLast?).map Cell.c).getD (gridGet g r.toNat c.toNat) := by
  induction cells generalizing g with
  | nil => rfl
  | cons cl cls ih =>
    rw [List.foldl_cons]
    have hg' : gridShape (paintCell nrows ncols g cl) nrows ncols :=
      paintCell_shape nrows ncols g cl hg
    rw [ih (paintCell nrows ncols g cl) hg']
    by_cases hpos : cl.x = r ∧ cl.y = c
    · have hb : Cell.in_bounds cl nrows ncols = true := by
        rw [in_bounds_iff]
        exact ⟨by omega, by omega, by omega, by omega⟩
      have hself : gridGet (paintCell nrows ncols g cl) r.toNat c.toNat = cl.c := by
        have := gridGet_paintCell_self nrows ncols g cl hg hb
        rwa [hpos.1, hpos.2] at this
      have hcons : cellsAt (cl :: cls) r c = cl :: cellsAt cls r c := by
        simp [cellsAt, List.filter_cons, hpos.1, hpos.2]
      rw [hcons, hself, List.getLast?_cons]
      cases hrest : (cellsAt cls r c).getLast? with
      | none => simp [hrest]
      | some last => simp [hrest]
    · have hother : gridGet (paintCell nrows ncols g cl) r.toNat c.toNat
          = gridGet g r.toNat c.toNat :=
        gridGet_paintCell_other nrows ncols g cl r c hr0 hc0 hpos
      have hcons : cellsAt (cl :: cls) r c = cellsAt cls r c := by
        have : (cl.x == r && cl.y == c) = false := by
          rcases Decidable.not_and_iff_or_not.mp hpos with h | h <;> simp [h]
        simp [cellsAt, List.filter_cons, this]
      rw [hcons, hother]

/-! ## Claim C3: z-order and insertion-order overwrite -/

/-- Claim C3: on a canvas holding exactly two elements A and B, both
with a cell at an in-bounds position, if the z of A is smaller than the
z of B, or equal to it with B upserted later, then the rendered
character at that position is the character B itself paints there (the
character of the last cell of B at the position): the render sort is
ascending and stable, so B is painted after A and overwrites it. -/
theorem render_overlap_z_wins (nrows ncols : Nat) (A B : CanvasElement)
    (r c : Int) (chB : Char)
    (hid : A.id ≠ B.id)
    (hz : A.z < B.z ∨ A.z = B.z)
    (hr0 : 0 ≤ r) (hrn : r < (nrows : Int)) (hc0 : 0 ≤ c) (hcm : c < (ncols : Int))
    (hA : ∃ cl ∈ A.cell_list, cl.x = r ∧ cl.y = c)
    (hB : lastCharAt B r c = some chB) :
    gridGet ((((Canvas.mk nrows ncols []).upsert A).upsert B).render) r.toNat c.toNat
      = chB := by
  have helems : (((Canvas.mk nrows ncols []).upsert A).upsert B).elements
      = [(A.id, A), (B.id, B)] := by
    simp [Canvas.upsert, upsertAssoc, hid]
  have hsorted : sortByZ ([(A.id, A), (B.id, B)].map Prod.snd) = [A, B] := by
    have hle : A.z ≤ B.z := by rcases hz with h | h <;> omega
    simp [sortByZ, insertZ, hle]
  rw [Canvas.render, helems, hsorted]
  have hshape : gridShape (paintElement nrows ncols (blankGrid nrows ncols) A)
      nrows ncols :=
    paintCells_shape nrows ncols A.cell_list _ (blankGrid_shape nrows ncols)
  have hlast : (((cellsAt B.cell_list r c).getLast?).map Cell.c) = some chB := hB
  calc gridGet ([A, B].foldl (paintElement nrows ncols) (blankGrid nrows ncols))
        r.toNat c.toNat
      = gridGet (paintElement nrows ncols
          (paintElement nrows ncols (blankGrid nrows ncols) A) B) r.toNat c.toNat := rfl
    _ = chB := by
        rw [paintElement,
          gridGet_paintCells nrows ncols B.cell_list _ hshape r c hr0 hrn hc0 hcm,
          hlast]
        rfl

/-- Claim C3 witness: a concrete 2 by 2 canvas with two one-cell
elements overlapping at position (1, 1). -/
theorem render_overlap_z_wins_witness :
    (CanvasElement.mk "a" 1 [Cell.mk 1 1 'a']).id
        ≠ (CanvasElement.mk "b" 2 [Cell.mk 1 1 'b']).id
    ∧ ((CanvasElement.mk "a" 1 [Cell.mk 1 1 'a']).z
          < (CanvasElement.mk "b" 2 [Cell.mk 1 1 'b']).z
        ∨ (CanvasElement.mk "a" 1 [Cell.mk 1 1 'a']).z
          = (CanvasElement.mk "b" 2 [Cell.mk 1 1 'b']).z)
    ∧ (0 : Int) ≤ 1 ∧ (1 : Int) < ((2 : Nat) : Int)
    ∧ (∃ cl ∈ (CanvasElement.mk "a" 1 [Cell.mk 1 1 'a']).cell_list,
        cl.x = 1 ∧ cl.y = 1)
    ∧ lastCharAt (CanvasElement.mk "b" 2 [Cell.mk 1 1 'b']) 1 1 = some 'b'
    ∧ gridGet ((((Canvas.mk 2 2 []).upsert (CanvasElement.mk "a" 1 [Cell.mk 1 1 'a'])).upsert
          (CanvasElement.mk "b" 2 [Cell.mk 1 1 'b'])).render)
        (1 : Int).toNat (1 : Int).toNat = 'b' :=
  ⟨by decide, Or.inl (by decide), by decide, by decide,
    ⟨Cell.mk 1 1 'a', by decide⟩, by decide,
    render_overlap_z_wins 2 2 (CanvasElement.mk "a" 1 [Cell.mk 1 1 'a'])
      (CanvasElement.mk "b" 2 [Cell.mk 1 1 'b']) 1 1 'b'
      (by decide) (Or.inl (by decide)) (by decide) (by decide) (by decide) (by decide)
      ⟨Cell.mk 1 1 'a', by decide⟩ (by decide)⟩

/-! ## Claim C4: render shape and clipping -/

theorem paintCell_out_of_bounds (nrows ncols : Nat) (g : List (List Char)) (cell : Cell)
    (hb : Cell.in_bounds cell nrows ncols = false) :
    paintCell nrows ncols g cell = g := by
  simp [paintCell, hb]

/-- Dropping the out-of-bounds cells of a list before painting changes
nothing: the paint loop skips exactly those cells. -/
theorem foldl_paintCell_filter (nrows ncols : Nat) (cells : List Cell)
    (g : List (List Char)) :
    cells.foldl (paintCell nrows ncols) g
      = (cells.filter (fun cl => Cell.in_bounds cl nrows ncols)).foldl
          (paintCell nrows ncols) g := by
  induction cells generalizing g with
  | nil => rfl
  | cons cl cls ih =>
    cases hb : Cell.in_bounds cl nrows ncols with
    | true => simp only [List.foldl_cons, List.filter_cons, hb, ite_true]; exact ih _
    | false =>
      simp only [List.foldl_cons, List.filter_cons, hb, ite_false,
        paintCell_out_of_bounds nrows ncols g cl hb]
      exact ih g

theorem paintElement_clip (nrows ncols : Nat) (g : List (List Char))
    (e : CanvasElement) :
    paintElement nrows ncols g (clipElement nrows ncols e) = paintElement nrows ncols g e := by
  rw [paintElement, paintElement, clipElement]
  exact (foldl_paintCell_filter nrows ncols e.cell_list g).symm

theorem clipElement_z (nrows ncols : Nat) (e : CanvasElement) :
    (clipElement nrows ncols e).z = e.z := rfl

theorem insertZ_map_clip (nrows ncols : Nat) (e : CanvasElement)
    (l : List CanvasElement) :
    insertZ (clipElement nrows ncols e) (l.map (clipElement nrows ncols))
      = (insertZ e l).map (clipElement nrows ncols) := by
  induction l with
  | nil => rfl
  | cons y ys ih =>
    by_cases h : e.z ≤ y.z
    · simp [insertZ, clipElement_z, h]
    · simp [insertZ, clipElement_z, h, ih]

theorem sortByZ_map_clip (nrows ncols : Nat) (l : List CanvasElement) :
    sortByZ (l.map (clipElement nrows ncols))
      = (sortByZ l).map (clipElement nrows ncols) := by
  induction l with
  | nil => rfl
  | cons x xs ih => rw [List.map_cons, sortByZ, sortByZ, ih, insertZ_map_clip]

theorem foldl_paintElement_map_clip (nrows ncols : Nat) (l : List CanvasElement)
    (g : List (List Char)) :
    (l.map (clipElement nrows ncols)).foldl (paintElement nrows ncols) g
      = l.foldl (paintElement nrows ncols) g := by
  induction l generalizing g with
  | nil => rfl
  | cons e es ih =>
    rw [List.map_cons, List.foldl_cons, List.foldl_cons, paintElement_clip]
    exact ih _

/-- Claim C4: whatever elements are registered, including ones holding
out-of-bounds cells, render returns a grid of exactly nrows rows each
of exactly ncols columns, and the grid equals the render of the same
canvas with every out-of-bounds cell deleted: out-of-bounds cells are
skipped, every grid write is in bounds, and no out-of-bounds cell
contributes a character to the output. -/
theorem render_shape_and_clip (cv : Canvas) :
    (cv.render.length = cv.nrows ∧ ∀ row ∈ cv.render, row.length = cv.ncols)
    ∧ cv.render = cv.clip.render := by
  refine ⟨⟨?_, ?_⟩, ?_⟩
  · exact (paintElements_shape cv.nrows cv.ncols _ _ (blankGrid_shape cv.nrows cv.ncols)).1
  · intro row hrow
    have hshape := paintElements_shape cv.nrows cv.ncols
      (sortByZ (cv.elements.map Prod.snd)) _ (blankGrid_shape cv.nrows cv.ncols)
    obtain ⟨i, hi, hgd⟩ := getD_of_mem _ row [] hrow
    have hlen : cv.render.length = cv.nrows := hshape.1
    rw [← hgd]
    exact hshape.2 i (by omega : i < cv.nrows)
  · rw [Canvas.render, Canvas.render, Canvas.clip]
    simp only [List.map_map]
    have hcomp : (Prod.snd ∘ fun kv : String × CanvasElement =>
        (kv.fst, clipElement cv.nrows cv.ncols kv.snd))
        = (clipElement cv.nrows cv.ncols) ∘ Prod.snd := rfl
    rw [hcomp, ← List.map_map, sortByZ_map_clip, foldl_paintElement_map_clip]

/-! ## Claims C8 and C9: the ornament decoration pass -/

/-- A successful draw hits an index whose cell currently holds the leaf
glyph; in particular the index is in range. -/
theorem drawLoop_some (cells : List Cell) (draws : List Nat) (i : Nat) (rest : List Nat)
    (h : drawLoop cells draws = some (i, rest)) :
    i < cells.length ∧ (cells.getD i defaultCell).c = '*' := by
  induction draws with
  | nil => simp [drawLoop] at h
  | cons d ds ih =>
    rw [drawLoop] at h
    by_cases hd : (cells.getD d defaultCell).c = '*'
    · rw [if_pos hd] at h
      obtain ⟨rfl, rfl⟩ : d = i ∧ ds = rest := by
        constructor <;> [exact congrArg Prod.fst (Option.some.inj h);
          exact congrArg Prod.snd (Option.some.inj h)]
      refine ⟨?_, hd⟩
      by_contra hge
      rw [getD_of_length_le _ _ _ (by omega)] at hd
      exact absurd hd (by decide)
    · rw [if_neg hd] at h
      exact ih h

theorem setOrnament_eq (cells : List Cell) (i : Nat) (h : i < cells.length) :
    setOrnament cells i
      = cells.set i (Cell.mk (cells.getD i defaultCell).x (cells.getD i defaultCell).y 'O') := by
  rw [setOrnament]
  have hsome : cells[i]? = some cells[i] := List.getElem?_eq_getElem h
  rw [hsome]
  have hgd : cells.getD i defaultCell = cells[i] := by
    rw [List.getD_eq_getElem?_getD, hsome]
    rfl
  rw [hgd]

theorem setOrnament_length (cells : List Cell) (i : Nat) :
    (setOrnament cells i).length = cells.length := by
  rw [setOrnament]
  cases h : cells[i]? with
  | none => rfl
  | some cl => simp

/-- Replacing a leaf cell by a non-leaf cell lowers the leaf count by
exactly one. -/
theorem countP_set_sub (cells : List Cell) (i : Nat) (cl' : Cell)
    (h : i < cells.length) (hstar : (cells.getD i defaultCell).c = '*')
    (hcl : cl'.c ≠ '*') :
    (cells.set i cl').countP (fun cl => cl.c == '*') + 1
      = cells.countP (fun cl => cl.c == '*') := by
  induction cells generalizing i with
  | nil => simp at h
  | cons x xs ih =>
    cases i with
    | zero =>
      have hx : x.c = '*' := hstar
      simp [List.countP_cons, hx, hcl]
    | succ n =>
      have hn : n < xs.length := by simpa using h
      have hs : (xs.getD n defaultCell).c = '*' := hstar
      have hrec := ih n hn hs
      simp only [List.set_cons_succ, List.countP_cons]
      omega

/-- Setting an ornament on a leaf cell lowers the leaf count by
exactly one. -/
theorem countP_set_ornament (cells : List Cell) (i : Nat)
    (h : i < cells.length) (hstar : (cells.getD i defaultCell).c = '*') :
    (setOrnament cells i).countP (fun cl => cl.c == '*') + 1
      = cells.countP (fun cl => cl.c == '*') := by
  rw [setOrnament_eq cells i h]
  exact countP_set_sub cells i _ h hstar (by simp)

/-- Claim C8 evaluation helper: the count of leaf cells in a cell
list. -/
def leafCount (cells : List Cell) : Nat :=
  cells.countP (fun cl => cl.c == '*')

/-- Claim C8: when the requested ornament count exceeds the number of
leaf cells, the decoration pass never completes: whatever finite
sequence of random draws the loop consumes, it is still inside its
unbounded retry (the model yields none, never a result — the code has
no failure or stop condition to return an error through). -/
theorem addOrnaments_overrequest (cells : List Cell) (n : Nat) (draws : List Nat)
    (hn : leafCount cells < n) :
    addOrnaments cells n draws = none := by
  induction n generalizing cells draws with
  | zero => exact absurd hn (by omega)
  | succ k ih =>
    rw [addOrnaments]
    cases hdl : drawLoop cells draws with
    | none => rfl
    | some p =>
      obtain ⟨i, rest⟩ := p
      obtain ⟨hlt, hstar⟩ := drawLoop_some cells draws i rest hdl
      have hcount := countP_set_ornament cells i hlt hstar
      exact ih (setOrnament cells i) rest (by unfold leafCount at hn ⊢; omega)

/-- Claim C8 witness: the repository's own XmasTree constructor always
requests 9 ornaments; a tree of height 2 has only 3 leaf cells, and the
decoration never completes on any draws (here a concrete draw list). -/
theorem addOrnaments_overrequest_witness :
    leafCount (XmasTree.build 0 0 2) < 9
    ∧ addOrnaments (XmasTree.build 0 0 2) 9 [1, 2, 3, 1, 2, 3] = none :=
  ⟨by decide, addOrnaments_overrequest (XmasTree.build 0 0 2) 9 [1, 2, 3, 1, 2, 3]
    (by decide)⟩

/-- Reading the ornamented index after setOrnament. -/
theorem setOrnament_getD_self (cells : List Cell) (i : Nat) (h : i < cells.length) :
    (setOrnament cells i).getD i defaultCell
      = Cell.mk (cells.getD i defaultCell).x (cells.getD i defaultCell).y 'O' := by
  rw [setOrnament_eq cells i h]
  exact getD_set_self _ _ _ _ h

/-- Reading any other index after setOrnament. -/
theorem setOrnament_getD_other (cells : List Cell) (i j : Nat) (hne : i ≠ j) :
    (setOrnament cells i).getD j defaultCell = cells.getD j defaultCell := by
  rw [setOrnament]
  cases h : cells[i]? with
  | none => rfl
  | some cl => exact getD_set_ne _ _ _ _ _ hne

/-- Claim C9: when the decoration pass completes, it has preserved the
cell count and every position: there are exactly n distinct indices,
each previously holding the leaf glyph, whose cells now hold the
ornament glyph at the same row and column, and every cell at any other
index is exactly as before — no cell with any other character is
modified. -/
theorem addOrnaments_frame (cells cells' : List Cell) (n : Nat) (draws : List Nat)
    (hleaf : n ≤ leafCount cells)
    (hrun : addOrnaments cells n draws = some cells') :
    cells'.length = cells.length
    ∧ ∃ changed : List Nat, changed.length = n ∧ changed.Nodup
        ∧ (∀ j ∈ changed, j < cells.length
            ∧ (cells.getD j defaultCell).c = '*'
            ∧ cells'.getD j defaultCell
                = Cell.mk (cells.getD j defaultCell).x (cells.getD j defaultCell).y 'O')
        ∧ (∀ j : Nat, j ∉ changed →
            cells'.getD j defaultCell = cells.getD j defaultCell) := by
  induction n generalizing cells draws with
  | zero =>
    have hc : cells = cells' := Option.some.inj hrun
    subst hc
    exact ⟨rfl, [], rfl, List.nodup_nil, by simp, fun j _ => rfl⟩
  | succ k ih =>
    rw [addOrnaments] at hrun
    cases hdl : drawLoop cells draws with
    | none => rw [hdl] at hrun; exact absurd hrun (by simp)
    | some p =>
      obtain ⟨i, rest⟩ := p
      rw [hdl] at hrun
      obtain ⟨hlt, hstar⟩ := drawLoop_some cells draws i rest hdl
      have hcount := countP_set_ornament cells i hlt hstar
      have hleaf' : k ≤ leafCount (setOrnament cells i) := by
        unfold leafCount at hleaf ⊢
        omega
      obtain ⟨hlen, changedIH, hlenIH, hnodupIH, hpropIH, hframeIH⟩ :=
        ih (setOrnament cells i) rest hleaf' hrun
      have hsetlen := setOrnament_length cells i
      have hiO : (setOrnament cells i).getD i defaultCell
          = Cell.mk (cells.getD i defaultCell).x (cells.getD i defaultCell).y 'O' :=
        setOrnament_getD_self cells i hlt
      have hinot : i ∉ changedIH := by
        intro hmem
        have hcontr := (hpropIH i hmem).2.1
        rw [hiO] at hcontr
        simp at hcontr
      refine ⟨by omega, i :: changedIH, by simp [hlenIH], List.nodup_cons.mpr ⟨hinot, hnodupIH⟩,
        ?_, ?_⟩
      · intro j hj
        rcases List.mem_cons.mp hj with rfl | hj'
        · exact ⟨hlt, hstar, by rw [hframeIH j hinot, hiO]⟩
        · have hne : i ≠ j := fun h => hinot (h ▸ hj')
          obtain ⟨hj1, hj2, hj3⟩ := hpropIH j hj'
          rw [setOrnament_getD_other cells i j hne] at hj2 hj3
          exact ⟨by omega, hj2, hj3⟩
      · intro j hj
        have hne : i ≠ j := fun h => hj (h ▸ List.mem_cons_self i changedIH)
        have hj' : j ∉ changedIH := fun h => hj (List.mem_cons_of_mem i h)
        rw [hframeIH j hj', setOrnament_getD_other cells i j hne]

/-- Claim C9 witness: one ornament placed on a concrete three-cell
list, hitting index 1 on the first draw. -/
theorem addOrnaments_frame_witness :
    1 ≤ leafCount [Cell.mk 0 0 '✪', Cell.mk 1 0 '*', Cell.mk 1 1 '*']
    ∧ addOrnaments [Cell.mk 0 0 '✪', Cell.mk 1 0 '*', Cell.mk 1 1 '*'] 1 [1]
        = some [Cell.mk 0 0 '✪', Cell.mk 1 0 'O', Cell.mk 1 1 '*']
    ∧ ([Cell.mk 0 0 '✪', Cell.mk 1 0 'O', Cell.mk 1 1 '*'] : List Cell).length
        = ([Cell.mk 0 0 '✪', Cell.mk 1 0 '*', Cell.mk 1 1 '*'] : List Cell).length
    ∧ ∃ changed : List Nat, changed.length = 1 ∧ changed.Nodup
        ∧ (∀ j ∈ changed,
            j < ([Cell.mk 0 0 '✪', Cell.mk 1 0 '*', Cell.mk 1 1 '*'] : List Cell).length
            ∧ (([Cell.mk 0 0 '✪', Cell.mk 1 0 '*', Cell.mk 1 1 '*'] : List Cell).getD j
                defaultCell).c = '*'
            ∧ ([Cell.mk 0 0 '✪', Cell.mk 1 0 'O', Cell.mk 1 1 '*'] : List Cell).getD j
                defaultCell
              = Cell.mk
                  (([Cell.mk 0 0 '✪', Cell.mk 1 0 '*', Cell.mk 1 1 '*'] : List Cell).getD j
                    defaultCell).x
                  (([Cell.mk 0 0 '✪', Cell.mk 1 0 '*', Cell.mk 1 1 '*'] : List Cell).getD j
                    defaultCell).y 'O')
        ∧ (∀ j : Nat, j ∉ changed →
            ([Cell.mk 0 0 '✪', Cell.mk 1 0 'O', Cell.mk 1 1 '*'] : List Cell).getD j
              defaultCell
            = ([Cell.mk 0 0 '✪', Cell.mk 1 0 '*', Cell.mk 1 1 '*'] : List Cell).getD j
              defaultCell) := by
  refine ⟨by decide, by decide, ?_⟩
  exact addOrnaments_frame [Cell.mk 0 0 '✪', Cell.mk 1 0 '*', Cell.mk 1 1 '*']
    [Cell.mk 0 0 '✪', Cell.mk 1 0 'O', Cell.mk 1 1 '*'] 1 [1] (by decide) (by decide)

/-! ## Claim C6: the tree builder before decoration -/

theorem mem_intRange {a lo hi : Int} : a ∈ intRange lo hi ↔ lo ≤ a ∧ a < hi := by
  constructor
  · intro hmem
    obtain ⟨k, hk, hEq⟩ := List.mem_map.mp hmem
    rw [List.mem_range] at hk
    omega
  · rintro ⟨h1, h2⟩
    refine List.mem_map.mpr ⟨(a - lo).toNat, List.mem_range.mpr (by omega), by omega⟩

/-- The build list with its lets unfolded and the width halved: the
star cell consed onto the leaf rows followed by the trunk block. -/
theorem xmasTree_build_unfold (sr sc h : Int) :
    XmasTree.build sr sc h
      = Cell.mk sr (sc + (h - 1)) '✪' ::
        ((intRange 1 h).flatMap (fun i =>
            (intRange (h - 1 - i) (h - 1 + i + 1)).map (fun j =>
              Cell.mk (sr + i) (sc + j) '*'))
          ++ (intRange h (h + h / 4)).flatMap (fun i =>
            (intRange (h - 1 - (if h / 3 % 2 = 1 then h / 3 else h / 3 + 1) / 2)
                (h - 1 - (if h / 3 % 2 = 1 then h / 3 else h / 3 + 1) / 2
                  + (if h / 3 % 2 = 1 then h / 3 else h / 3 + 1))).map (fun j =>
              Cell.mk (sr + i) (sc + j) '*'))) := by
  have hmid : (2 * h - 1) / 2 = h - 1 := by omega
  simp only [XmasTree.build]
  rw [hmid]
  simp [List.append_assoc]

/-- Claim C6: for height at least 1, the tree builder produces a single
star cell at the apex (the head of the list; every other cell holds the
leaf glyph), and a cell belongs to the build exactly when it is that
star, or a leaf-row cell: row sr + i for some i with 1 <= i < height,
spanning the 2i+1 columns centred on the horizontal midpoint
sc + (height - 1) (so the widest row spans 2*height - 1 columns), or a
trunk cell: row sr + i for height <= i < height + height / 4 (trunk
height = height // 4), in the columns centred on the same midpoint with
half-width tw / 2 where tw is height // 3 rounded up to the nearest odd
number (trunk width = tw). -/
theorem xmasTree_build_spec (sr sc h : Int) (hh : 1 ≤ h) :
    (∃ rest, XmasTree.build sr sc h = Cell.mk sr (sc + (h - 1)) '✪' :: rest
        ∧ ∀ cl ∈ rest, cl.c = '*')
    ∧ (∀ cl : Cell, cl ∈ XmasTree.build sr sc h ↔
        (cl = Cell.mk sr (sc + (h - 1)) '✪'
         ∨ (∃ i : Int, 1 ≤ i ∧ i < h ∧ cl.x = sr + i ∧ cl.c = '*'
              ∧ sc + (h - 1) - i ≤ cl.y ∧ cl.y ≤ sc + (h - 1) + i)
         ∨ (∃ i : Int, h ≤ i ∧ i < h + h / 4 ∧ cl.x = sr + i ∧ cl.c = '*'
              ∧ sc + (h - 1) - (if h / 3 % 2 = 1 then h / 3 else h / 3 + 1) / 2 ≤ cl.y
              ∧ cl.y ≤ sc + (h - 1)
                  + (if h / 3 % 2 = 1 then h / 3 else h / 3 + 1) / 2))) := by
  have hpar : (if h / 3 % 2 = 1 then h / 3 else h / 3 + 1) % 2 = 1 := by
    by_cases hp : h / 3 % 2 = 1
    · rw [if_pos hp]
      exact hp
    · rw [if_neg hp]
      omega
  constructor
  · refine ⟨_, xmasTree_build_unfold sr sc h, ?_⟩
    intro cl hcl
    simp only [List.mem_append, List.mem_flatMap, List.mem_map, mem_intRange] at hcl
    rcases hcl with ⟨i, _, j, _, rfl⟩ | ⟨i, _, j, _, rfl⟩ <;> rfl
  · intro cl
    obtain ⟨cx, cy, cc⟩ := cl
    rw [xmasTree_build_unfold sr sc h]
    simp only [List.mem_cons, List.mem_append, List.mem_flatMap, List.mem_map,
      mem_intRange, Cell.mk.injEq]
    by_cases hp : h / 3 % 2 = 1
    · rw [if_pos hp] at hpar ⊢
      constructor
      · rintro (h1 | ⟨i, ⟨hi1, hi2⟩, j, ⟨hj1, hj2⟩, hx, hy, hc⟩
            | ⟨i, ⟨hi1, hi2⟩, j, ⟨hj1, hj2⟩, hx, hy, hc⟩)
        · exact Or.inl h1
        · exact Or.inr (Or.inl ⟨i, hi1, hi2, by omega, hc.symm, by omega, by omega⟩)
        · exact Or.inr (Or.inr ⟨i, hi1, hi2, by omega, hc.symm, by omega, by omega⟩)
      · rintro (h1 | ⟨i, hi1, hi2, hx, hc, hy1, hy2⟩ | ⟨i, hi1, hi2, hx, hc, hy1, hy2⟩)
        · exact Or.inl h1
        · exact Or.inr (Or.inl ⟨i, ⟨hi1, hi2⟩, cy - sc,
            ⟨by omega, by omega⟩, by omega, by omega, hc.symm⟩)
        · exact Or.inr (Or.inr ⟨i, ⟨hi1, hi2⟩, cy - sc,
            ⟨by omega, by omega⟩, by omega, by omega, hc.symm⟩)
    · rw [if_neg hp] at hpar ⊢
      constructor
      · rintro (h1 | ⟨i, ⟨hi1, hi2⟩, j, ⟨hj1, hj2⟩, hx, hy, hc⟩
            | ⟨i, ⟨hi1, hi2⟩, j, ⟨hj1, hj2⟩, hx, hy, hc⟩)
        · exact Or.inl h1
        · exact Or.inr (Or.inl ⟨i, hi1, hi2, by omega, hc.symm, by omega, by omega⟩)
        · exact Or.inr (Or.inr ⟨i, hi1, hi2, by omega, hc.symm, by omega, by omega⟩)
      · rintro (h1 | ⟨i, hi1, hi2, hx, hc, hy1, hy2⟩ | ⟨i, hi1, hi2, hx, hc, hy1, hy2⟩)
        · exact Or.inl h1
        · exact Or.inr (Or.inl ⟨i, ⟨hi1, hi2⟩, cy - sc,
            ⟨by omega, by omega⟩, by omega, by omega, hc.symm⟩)
        · exact Or.inr (Or.inr ⟨i, ⟨hi1, hi2⟩, cy - sc,
            ⟨by omega, by omega⟩, by omega, by omega, hc.symm⟩)

/-- Claim C6 witness: the characterization instantiated at a concrete
tree of height 5 placed at the origin. -/
theorem xmasTree_build_spec_witness :
    (1 : Int) ≤ 5
    ∧ ((∃ rest, XmasTree.build 0 0 5 = Cell.mk 0 (0 + (5 - 1)) '✪' :: rest
          ∧ ∀ cl ∈ rest, cl.c = '*')
       ∧ (∀ cl : Cell, cl ∈ XmasTree.build 0 0 5 ↔
          (cl = Cell.mk 0 (0 + (5 - 1)) '✪'
           ∨ (∃ i : Int, 1 ≤ i ∧ i < 5 ∧ cl.x = 0 + i ∧ cl.c = '*'
                ∧ 0 + (5 - 1) - i ≤ cl.y ∧ cl.y ≤ 0 + (5 - 1) + i)
           ∨ (∃ i : Int, 5 ≤ i ∧ i < 5 + (5 : Int) / 4 ∧ cl.x = 0 + i ∧ cl.c = '*'
                ∧ 0 + (5 - 1)
                    - (if (5 : Int) / 3 % 2 = 1 then (5 : Int) / 3
                        else (5 : Int) / 3 + 1) / 2 ≤ cl.y
                ∧ cl.y ≤ 0 + (5 - 1)
                    + (if (5 : Int) / 3 % 2 = 1 then (5 : Int) / 3
                        else (5 : Int) / 3 + 1) / 2)))) :=
  ⟨by decide, xmasTree_build_spec 0 0 5 (by decide)⟩
